import Mathlib

/-! # mbitselect: detection of the connected micro:bit revision

A shallow embedding of the Go program `mbitselect` (files `mbitselect.go`,
`parse-details.go`, `resolve_darwin.go`, `resolve_linux.go`) and theorems about it.

Conventions of the embedding.

* A Go `string` is the list of its characters (`GoString`); the inputs considered are
  valid UTF-8 texts.
* A Go function returning `(T, error)` returns a pair `T × Option GoError`, `none`
  being the `nil` error.
* What the program reads from its environment (the listing of `/Volumes`, the output
  of the mount pipeline, the files it opens, what the line scanner yields) is a field
  of `World`.
* Of the logger only the calls are kept, with their level and message.
* The file `resolve_linux.go` does not compile as it stands (its line 22); its
  function is embedded as its body reads, that line left out, and is marked so.
-/

set_option autoImplicit false

namespace Mbitselect

/-- A Go string: its characters in order. -/
abbrev GoString := List Char

/-! ## The pieces of the Go standard library the program calls -/

/-- Go `strings.HasPrefix`. -/
def stringsHasPrefix (s pre : GoString) : Bool :=
  pre.isPrefixOf s

/-- Go `strings.Contains`: `sub` occurs in `s` as a run of consecutive characters. -/
def stringsContains : GoString → GoString → Bool
  | [], sub => sub.isEmpty
  | c :: s, sub => sub.isPrefixOf (c :: s) || stringsContains s sub

/-- Go `strings.TrimLeft`: drop the leading characters that belong to `cutset`. -/
def stringsTrimLeft (s cutset : GoString) : GoString :=
  s.dropWhile (fun c => cutset.contains c)

/-- Go `strings.TrimRight`: drop the trailing characters that belong to `cutset`. -/
def stringsTrimRight (s cutset : GoString) : GoString :=
  (s.reverse.dropWhile (fun c => cutset.contains c)).reverse

/-- Go `strings.Trim`: drop the leading and the trailing characters of `cutset`. -/
def stringsTrim (s cutset : GoString) : GoString :=
  stringsTrimRight (stringsTrimLeft s cutset) cutset

/-- The scan behind `strings.Split` for a non-empty separator: `skip` counts the
characters of a separator just matched that are still to be passed over, `acc` holds
the current segment in reverse. -/
def splitGo (sep : GoString) : GoString → Nat → GoString → List GoString
  | [], _, acc => [acc.reverse]
  | _ :: s, skip + 1, acc => splitGo sep s skip acc
  | c :: s, 0, acc =>
    if sep.isPrefixOf (c :: s) then acc.reverse :: splitGo sep s (sep.length - 1) []
    else splitGo sep s 0 (c :: acc)

/-- Go `strings.Split` for a non-empty separator (the program only splits on
`": "`): the segments between the occurrences of `sep`, found left to right. -/
def stringsSplit (s sep : GoString) : List GoString :=
  splitGo sep s 0 []

/-- The Go expression `sl[len(sl)-1]`. -/
def lastElem (sl : List GoString) : GoString :=
  sl.getLastD []

/-- The lexical clean-up of `filepath.Clean`, on the elements of a path: empty
elements and `.` vanish, `..` removes the element before it (at the root it
vanishes, at the start of a relative path it stays). `out` is the cleaned path so
far, in reverse. -/
def cleanElems (rooted : Bool) : List GoString → List GoString → List GoString
  | [], out => out.reverse
  | e :: es, out =>
    if e = [] ∨ e = ['.'] then cleanElems rooted es out
    else if e = ['.', '.'] then
      match out with
      | [] => if rooted then cleanElems rooted es [] else cleanElems rooted es [e]
      | o :: os =>
        if o = ['.', '.'] then cleanElems rooted es (e :: o :: os)
        else cleanElems rooted es os
    else cleanElems rooted es (e :: out)

/-- The elements of a path: the runs between its slashes. -/
def pathElems : GoString → GoString → List GoString
  | [], acc => [acc.reverse]
  | c :: s, acc => if c = '/' then acc.reverse :: pathElems s [] else pathElems s (c :: acc)

/-- Go `filepath.Clean` (Unix). -/
def filepathClean (path : GoString) : GoString :=
  match path with
  | [] => ['.']
  | c :: _ =>
    let rooted : Bool := c = '/'
    let out := ['/'].intercalate (cleanElems rooted (pathElems path []) [])
    if rooted then '/' :: out else if out = [] then ['.'] else out

/-- Go `filepath.Join` of two elements (Unix): empty elements are ignored and the
result is cleaned; the join of empty elements is empty. -/
def filepathJoin (a b : GoString) : GoString :=
  if a ≠ [] then filepathClean (a ++ '/' :: b)
  else if b ≠ [] then filepathClean b
  else []

/-- The table `lowerhex` of package `strconv`. -/
def lowerhex (n : Nat) : Char :=
  "0123456789abcdef".toList.getD n '0'

/-- Go `strconv.IsPrint`: decided by ranges up to U+00FF, by the Unicode tables of
the Go library, passed as `table`, above. -/
def strconvIsPrint (table : Char → Bool) (r : Char) : Bool :=
  if r.toNat ≤ 0xFF then
    if 0x20 ≤ r.toNat ∧ r.toNat ≤ 0x7E then true
    else if 0xA1 ≤ r.toNat then r.toNat ≠ 0xAD
    else false
  else table r

/-- The function `appendEscapedRune` of `strconv`, for the double quote as quote
character: what `%q` writes for one character. -/
def escapedRune (table : Char → Bool) (r : Char) : GoString :=
  if r = '"' ∨ r = '\\' then ['\\', r]
  else if strconvIsPrint table r then [r]
  else if r.toNat = 7 then "\\a".toList
  else if r.toNat = 8 then "\\b".toList
  else if r.toNat = 12 then "\\f".toList
  else if r.toNat = 10 then "\\n".toList
  else if r.toNat = 13 then "\\r".toList
  else if r.toNat = 9 then "\\t".toList
  else if r.toNat = 11 then "\\v".toList
  else if r.toNat < 0x20 ∨ r.toNat = 0x7F then
    ['\\', 'x', lowerhex (r.toNat / 16), lowerhex (r.toNat % 16)]
  else if r.toNat < 0x10000 then
    '\\' :: 'u' :: [12, 8, 4, 0].map (fun s => lowerhex (r.toNat / 2 ^ s % 16))
  else
    '\\' :: 'U' :: [28, 24, 20, 16, 12, 8, 4, 0].map (fun s => lowerhex (r.toNat / 2 ^ s % 16))

/-- Go `strconv.Quote`, which the verb `%q` applies to a string: a double-quoted Go
string literal. -/
def strconvQuote (table : Char → Bool) (s : GoString) : GoString :=
  '"' :: (s.flatMap (escapedRune table) ++ ['"'])

/-- Go `bytes.Buffer.ReadString`: the buffer up to and including the first `delim`
with a nil error; without a `delim`, the whole buffer with `io.EOF` (`true`). -/
def readString (delim : Char) : GoString → GoString × Bool
  | [] => ([], true)
  | c :: s =>
    if c = delim then ([c], false)
    else ((readString delim s).1.cons c, (readString delim s).2)

/-! ## Errors -/

/-- A Go `error` value. -/
inductive GoError where
  /-- An error this program makes with `fmt.Errorf` and no wrapped error. -/
  | own (msg : GoString)
  /-- An error returned by the Go library or the operating system. -/
  | lib (msg : GoString)
  /-- An error made by `fmt.Errorf` with the verb `%w`: its message and the error
  it wraps. -/
  | wrap (msg : GoString) (err : GoError)
  deriving DecidableEq, Repr

/-- The method `Error()`: the message. -/
def GoError.Error : GoError → GoString
  | .own msg => msg
  | .lib msg => msg
  | .wrap msg _ => msg

/-- Go `errors.Is` on a non-nil error: the target is the error or is in its chain of
wrapped errors. The targets the program passes are its three package-level errors. -/
def GoError.is : GoError → GoError → Bool
  | .own msg, target => decide (GoError.own msg = target)
  | .lib msg, target => decide (GoError.lib msg = target)
  | .wrap msg err, target => decide (GoError.wrap msg err = target) || err.is target

/-- Go `errors.Is(err, target)` for a non-nil target; the nil error is no error. -/
def errorsIs : Option GoError → GoError → Bool
  | none, _ => false
  | some err, target => err.is target

/-- Go `fmt.Errorf(msg + "%w", err)` for a non-nil `err`. -/
def errorfWrap (msg : GoString) (err : GoError) : GoError :=
  .wrap (msg ++ err.Error) err

def errNotDetected : GoError := .own "not detected".toList

def errInvalidDetails : GoError := .own "invalid details file".toList

def errUnknownFirmware : GoError := .own "unknown firmware combination".toList

/-! ## `mbitselect.go`: the revision type -/

/-- The Go type `microbitVersion`, a string. -/
abbrev microbitVersion := GoString

def microbitVersion1 : microbitVersion := "microbit".toList

def microbitVersion2 : microbitVersion := "microbit-v2".toList

/-- The method `IsValid`. -/
def microbitVersion.IsValid (mv : microbitVersion) : Bool :=
  if mv = microbitVersion1 ∨ mv = microbitVersion2 then true else false

/-- The method `String`. -/
def microbitVersion.String (mv : microbitVersion) : GoString :=
  if microbitVersion.IsValid mv then mv else []

/-! ## `parse-details.go` -/

structure firmwareDetails where
  bootloader : GoString
  iface : GoString
  deriving DecidableEq, Repr

/-- The method `String` of `firmwareDetails`:
`fmt.Sprintf("(bootloader: %q; interface: %q)", fd.bootloader, fd.iface)`. -/
def firmwareDetails.String (table : Char → Bool) (fd : firmwareDetails) : GoString :=
  "(bootloader: ".toList ++ strconvQuote table fd.bootloader ++ "; interface: ".toList
    ++ strconvQuote table fd.iface ++ ")".toList

/-- The map literal `firmwareDetailsToMicrobitVersion`, entry by entry. -/
def firmwareDetailsToMicrobitVersion : List (firmwareDetails × microbitVersion) :=
  [ (⟨"0234".toList, "0234".toList⟩, microbitVersion1),
    (⟨"0234".toList, "0241".toList⟩, microbitVersion1),
    (⟨"0243".toList, "0249".toList⟩, microbitVersion1),
    (⟨"0255".toList, "0255".toList⟩, microbitVersion2),
    (⟨"0256".toList, "0256".toList⟩, microbitVersion2),
    (⟨"0257".toList, "0257".toList⟩, microbitVersion2),
    (⟨"0255".toList, "0258".toList⟩, microbitVersion2) ]

/-- The Go map index `firmwareDetailsToMicrobitVersion[fd]` with its `ok` result:
`none` when `fd` is not a key. -/
def tableLookup (fd : firmwareDetails) : Option microbitVersion :=
  (firmwareDetailsToMicrobitVersion.find? (fun e => decide (e.1 = fd))).map Prod.snd

def mbitDetailsFile : GoString := "DETAILS.TXT".toList

def headerBootloaderVersion : GoString := "Bootloader Version".toList

def headerIFaceVersion : GoString := "Interface Version".toList

/-- One call of `scanner.Scan()` that returned true: what `scanner.Text()` and
`scanner.Err()` return after it. The text is a line of the file without its
terminator, a line feed and the carriage return before it if there is one, which the
scanner removes. The error is non-nil only for what was buffered when a read
failed. -/
structure ScanStep where
  text : GoString
  err : Option GoError
  deriving DecidableEq, Repr

/-- What a `bufio.Scanner` does on an open file: the calls of `Scan()` that return
true, in order, and what `Err()` returns once `Scan()` has returned false (`none`
at the end of the file). -/
structure ScanTrace where
  steps : List ScanStep
  err : Option GoError
  deriving DecidableEq, Repr

/-- The body of the loop `for scanner.Scan()` of `parseDetailsFile` on a line. -/
def scanLine (fd : firmwareDetails) (text : GoString) : firmwareDetails :=
  let line := stringsTrim text "\r\n".toList
  let fd1 : firmwareDetails :=
    if stringsHasPrefix line headerBootloaderVersion then
      { fd with bootloader := lastElem (stringsSplit line ": ".toList) }
    else fd
  if stringsHasPrefix line headerIFaceVersion then
    { fd1 with iface := lastElem (stringsSplit line ": ".toList) }
  else fd1

/-- The loop `for scanner.Scan()` of `parseDetailsFile`: the details read, or the
error of the return inside the loop. There `err` is the nil error of `os.Open`, so
that `fmt.Errorf("reading file: %w", err)` has nothing to wrap. -/
def scanLoop : List ScanStep → firmwareDetails → Except GoError firmwareDetails
  | [], fd => .ok fd
  | st :: rest, fd =>
    if st.err ≠ none then .error (.own "reading file: %!w(<nil>)".toList)
    else scanLoop rest (scanLine fd st.text)

/-- The part of `parseDetailsFile` after the file is open. What `scanner.Err()`
returns after the loop, `sc.err`, is not read. -/
def parseScanned (sc : ScanTrace) : firmwareDetails × Option GoError :=
  match scanLoop sc.steps ⟨[], []⟩ with
  | .error e => (⟨[], []⟩, some e)
  | .ok fd =>
    if fd.bootloader = [] ∨ fd.iface = [] then (⟨[], []⟩, some errInvalidDetails)
    else (fd, none)

/-! ## The environment -/

/-- The platform whose file defines `getMBitPathOnCurrentPlatform`. The file
`resolve_linux.go` is refused by the Go compiler as it stands (see
`getMBitPathLinux`), so `linux` stands for the program with the body of that
function as written, not for a program the repository builds. -/
inductive Platform where
  | darwin
  | linux
  deriving DecidableEq, Repr

/-- What the program reads from the machine it runs on. -/
structure World where
  /-- Result of `os.ReadDir("/Volumes")`: the names of the entries, in order. -/
  volumes : Except GoError (List GoString)
  /-- Result of running the shell pipeline of `resolve_linux.go`: the error of
  `cmd.Run()` or what the pipeline wrote to its standard output. -/
  pipeline : Except GoError GoString
  /-- Result of `os.Open` on a path, and of scanning the file. -/
  files : GoString → Except GoError ScanTrace
  /-- The Unicode tables behind `strconv.IsPrint` above U+00FF. -/
  printable : Char → Bool
  /-- The error of writing to standard output, if any. -/
  stdoutErr : Option GoError

def parseDetailsFile (w : World) (mbitMountPath : GoString) : firmwareDetails × Option GoError :=
  match w.files (filepathJoin mbitMountPath mbitDetailsFile) with
  | .error err => (⟨[], []⟩, some (errorfWrap "opening microbit details file: ".toList err))
  | .ok sc => parseScanned sc

/-! ## `resolve_darwin.go`, `resolve_linux.go` -/

/-- The loop of the macOS `getMBitPathOnCurrentPlatform` over the entries: the value
of `path` after it. -/
def firstMicrobitPath : List GoString → GoString
  | [] => []
  | n :: rest =>
    if stringsContains n "MICROBIT".toList then filepathJoin "/Volumes".toList n
    else firstMicrobitPath rest

/-- The function `getMBitPathOnCurrentPlatform` of `resolve_darwin.go`. -/
def getMBitPathDarwin (w : World) : GoString × Option GoError :=
  match w.volumes with
  | .error err => ([], some (errorfWrap "failed to list mounted volumes: ".toList err))
  | .ok mounted =>
    let path := firstMicrobitPath mounted
    if path = [] then ([], some errNotDetected) else (path, none)

/-- The body of the function `getMBitPathOnCurrentPlatform` of `resolve_linux.go`,
read by hand. Line 22 of that file, `cmd.Stderr = os.DevNull`, assigns the string
constant `os.DevNull` to a field of type `io.Writer`: the Go compiler refuses it, so
the file does not build as it stands and the function has no run. The line concerns
the standard error of the pipeline, which the function never reads, and is left out
here; everything else of the body is kept. What is stated of this definition is
stated of the text of the function, not of a run on Linux. The error of
`buf.ReadString` is nil or `io.EOF`, so its first test never holds. -/
def getMBitPathLinux (w : World) : GoString × Option GoError :=
  match w.pipeline with
  | .error err => ([], some (errorfWrap "getting mounted devices: ".toList err))
  | .ok buf =>
    let line := (readString (Char.ofNat 10) buf).1
    if line = [] then ([], some errNotDetected) else (line, none)

/-- The function `getMBitPathOnCurrentPlatform`, one file per platform. -/
def getMBitPathOnCurrentPlatform (p : Platform) (w : World) : GoString × Option GoError :=
  match p with
  | .darwin => getMBitPathDarwin w
  | .linux => getMBitPathLinux w

/-! ## `mbitselect.go`: resolution and `main` -/

def resolveConnectedMicrobitVersion (p : Platform) (w : World) :
    microbitVersion × Option GoError :=
  match getMBitPathOnCurrentPlatform p w with
  | (_, some err) => ([], some (errorfWrap "locating microbit: ".toList err))
  | (path, none) =>
    match parseDetailsFile w path with
    | (_, some err) => ([], some (errorfWrap "reading firmware details: ".toList err))
    | (fd, none) =>
      match tableLookup fd with
      | none =>
        ([], some (.wrap (errUnknownFirmware.Error ++ ": ".toList ++ fd.String w.printable)
          errUnknownFirmware))
      | some mv => (mv, none)

inductive Level where
  | info
  | error
  | dpanic
  deriving DecidableEq, Repr

/-- One call of the logger: its level and message. -/
structure LogCall where
  level : Level
  msg : GoString
  deriving DecidableEq, Repr

/-- How the process ends: `main` returns, `os.Exit(code)`, or a panic. -/
inductive Termination where
  | returned
  | exit (code : Nat)
  | panicked
  deriving DecidableEq, Repr

/-- What a run of the program does: what it writes to standard output, the calls of
the logger, how it ends. -/
structure Outcome where
  stdout : GoString
  log : List LogCall
  termination : Termination
  deriving DecidableEq, Repr

/-- The exit status of the process. -/
def Outcome.exitStatus (o : Outcome) : Nat :=
  match o.termination with
  | .returned => 0
  | .exit code => code
  | .panicked => 2

/-- The end of `main`: `fmt.Fprint(os.Stdout, target)`, which prints
`target.String()`; when the write fails, `main` logs an error and calls
`os.Exit(1)`. A write that fails is taken to have written nothing. -/
def printTarget (w : World) (target : microbitVersion) (log : List LogCall) : Outcome :=
  match w.stdoutErr with
  | some _ =>
    ⟨[], log ++ [⟨.error, "failed to print resolved microbit platform".toList⟩], .exit 1⟩
  | none => ⟨microbitVersion.String target, log, .returned⟩

/-- The function `main`, for a value of the flag `-fallback`. The logger is the
development logger built by `init`, whose `DPanic` panics. -/
def main (p : Platform) (w : World) (flagFallbackVersion : microbitVersion) : Outcome :=
  let target := flagFallbackVersion
  if ¬ microbitVersion.IsValid target then
    ⟨[], [⟨.error, "invalid value for -fallback flag".toList⟩], .exit 1⟩
  else
    match resolveConnectedMicrobitVersion p w with
    | (rmv, err) =>
      if errorsIs err errNotDetected then
        printTarget w target
          [⟨.info, "unable to detect a connected microbit, using fallback".toList⟩]
      else if errorsIs err errInvalidDetails then
        ⟨[], [⟨.error, "the details file could not be parsed".toList⟩], .exit 1⟩
      else if errorsIs err errUnknownFirmware then
        ⟨[], [⟨.error, "unknown firmware combination".toList⟩], .exit 1⟩
      else if err ≠ none then
        ⟨[], [⟨.error, "failed to detect microbit version".toList⟩], .exit 1⟩
      else if ¬ microbitVersion.IsValid rmv then
        ⟨[], [⟨.dpanic,
          "invalid microbit version returned from resolveConnectedMicrobitVersion".toList⟩],
          .panicked⟩
      else printTarget w rmv []

/-! ## Example environments -/

/-- A macOS machine with a volume `MICROBIT` whose `DETAILS.TXT` is read without
error and holds the given lines. No character above U+00FF occurs in it. -/
def worldOfLines (lines : List GoString) : World where
  volumes := .ok ["Macintosh HD".toList, "MICROBIT".toList]
  pipeline := .ok []
  files := fun path =>
    if path = "/Volumes/MICROBIT/DETAILS.TXT".toList then
      .ok ⟨lines.map (fun l => ⟨l, none⟩), none⟩
    else .error (.lib "no such file or directory".toList)
  printable := fun _ => false
  stdoutErr := none

/-- A machine on which no volume of a micro:bit is mounted. -/
def worldWithoutBoard : World where
  volumes := .ok ["Macintosh HD".toList, "Backup".toList]
  pipeline := .ok []
  files := fun _ => .error (.lib "no such file or directory".toList)
  printable := fun _ => false
  stdoutErr := none

/-- A macOS machine on which two boards are mounted. -/
def twoBoardsWorld : World where
  volumes := .ok ["Macintosh HD".toList, "MICROBIT".toList, "MICROBIT 1".toList]
  pipeline := .ok []
  files := fun _ => .error (.lib "no such file or directory".toList)
  printable := fun _ => false
  stdoutErr := none

/-- A macOS machine with a volume `MICROBIT` on which the scan of `DETAILS.TXT`
yields the given lines and then stops on a read error. -/
def readErrorWorld (lines : List GoString) : World where
  volumes := .ok ["Macintosh HD".toList, "MICROBIT".toList]
  pipeline := .ok []
  files := fun path =>
    if path = "/Volumes/MICROBIT/DETAILS.TXT".toList then
      .ok ⟨lines.map (fun l => ⟨l, none⟩),
        some (.lib "read /Volumes/MICROBIT/DETAILS.TXT: input/output error".toList)⟩
    else .error (.lib "no such file or directory".toList)
  printable := fun _ => false
  stdoutErr := none

/-- A machine on which no volume of a micro:bit is mounted and standard output is
closed, so that writing to it fails. -/
def closedStdoutWorld : World where
  volumes := .ok ["Macintosh HD".toList, "Backup".toList]
  pipeline := .ok []
  files := fun _ => .error (.lib "no such file or directory".toList)
  printable := fun _ => false
  stdoutErr := some (.lib "write /dev/stdout: file already closed".toList)

/-- A Linux machine with a board mounted at `/media/user/MICROBIT`: the pipeline
prints the mount point and a newline, and the details file of the board is at
`/media/user/MICROBIT/DETAILS.TXT`. -/
def linuxBoardWorld : World where
  volumes := .error (.lib "open /Volumes: no such file or directory".toList)
  pipeline := .ok "/media/user/MICROBIT\n".toList
  files := fun path =>
    if path = "/media/user/MICROBIT/DETAILS.TXT".toList then
      .ok ⟨[⟨"Bootloader Version: 0255".toList, none⟩,
        ⟨"Interface Version: 0255".toList, none⟩], none⟩
    else .error (.lib "no such file or directory".toList)
  printable := fun _ => false
  stdoutErr := none

/-! # Theorems -/

/-! ## Lemmas on the library functions -/

theorem stringsContains_iff (s sub : GoString) :
    stringsContains s sub = true ↔ sub <:+: s := by
  induction s with
  | nil =>
    cases sub <;> simp [stringsContains]
  | cons c s ih =>
    rw [stringsContains, Bool.or_eq_true, ih, List.infix_cons_iff, List.isPrefixOf_iff_prefix]

theorem pathElems_no_slash (s acc : GoString) (h : '/' ∉ s) :
    pathElems s acc = [acc.reverse ++ s] := by
  induction s generalizing acc with
  | nil => simp [pathElems]
  | cons c s ih =>
    have hc : c ≠ '/' := fun e => h (e ▸ List.mem_cons_self _ _)
    have hs : '/' ∉ s := fun e => h (List.mem_cons_of_mem _ e)
    rw [pathElems, if_neg hc, ih _ hs]
    simp

theorem filepathClean_ne_nil (path : GoString) : filepathClean path ≠ [] := by
  unfold filepathClean
  cases path with
  | nil => simp
  | cons c s =>
    simp only
    split
    · simp
    · split
      · simp
      · assumption

theorem filepathJoin_ne_nil (a b : GoString) (ha : a ≠ []) : filepathJoin a b ≠ [] := by
  unfold filepathJoin
  rw [if_pos ha]
  exact filepathClean_ne_nil _

theorem filepathJoin_volumes (n : GoString) (hs : '/' ∉ n) (h0 : n ≠ [])
    (h1 : n ≠ ['.']) (h2 : n ≠ ['.', '.']) :
    filepathJoin "/Volumes".toList n = "/Volumes/".toList ++ n := by
  have hel : pathElems ("/Volumes".toList ++ '/' :: n) [] = [[], "Volumes".toList, n] := by
    simp +decide [pathElems, pathElems_no_slash n [] hs]
  unfold filepathJoin
  rw [if_pos (by decide)]
  show filepathClean ('/' :: ("Volumes".toList ++ '/' :: n)) = _
  unfold filepathClean
  simp only
  have : ('/' :: ("Volumes".toList ++ '/' :: n)) = "/Volumes".toList ++ '/' :: n := rfl
  rw [this, hel]
  simp +decide [cleanElems, h0, h1, h2, List.intercalate]

/-! ## Lemmas on the scan of the details file -/

theorem stringsTrimRight_append (s t cutset : GoString) (ht : ∀ c ∈ t, c ∈ cutset) :
    stringsTrimRight (s ++ t) cutset = stringsTrimRight s cutset := by
  unfold stringsTrimRight
  rw [List.reverse_append, List.dropWhile_append_of_pos]
  intro a ha
  simpa using ht a (List.mem_reverse.1 ha)

theorem stringsTrim_append (s t cutset : GoString) (ht : ∀ c ∈ t, c ∈ cutset) :
    stringsTrim (s ++ t) cutset = stringsTrim s cutset := by
  unfold stringsTrim stringsTrimLeft
  rw [List.dropWhile_append]
  split
  · rename_i hempty
    have hnil : List.dropWhile (fun c => cutset.contains c) s = [] := by
      simpa using hempty
    have htnil : List.dropWhile (fun c => cutset.contains c) t = [] := by
      rw [List.dropWhile_eq_nil_iff]
      intro x hx
      simpa using ht x hx
    rw [hnil, htnil]
  · exact stringsTrimRight_append _ t cutset ht

theorem scanLoop_ok (steps : List ScanStep) (fd : firmwareDetails)
    (h : ∀ st ∈ steps, st.err = none) :
    scanLoop steps fd = .ok (steps.foldl (fun acc st => scanLine acc st.text) fd) := by
  induction steps generalizing fd with
  | nil => rfl
  | cons st rest ih =>
    rw [scanLoop, if_neg (by simp [h st (List.mem_cons_self _ _)]), List.foldl_cons]
    exact ih _ (fun s hs => h s (List.mem_cons_of_mem _ hs))

theorem scanLoop_steps_ok (steps : List ScanStep) (fd out : firmwareDetails)
    (h : scanLoop steps fd = .ok out) : ∀ st ∈ steps, st.err = none := by
  induction steps generalizing fd with
  | nil => intro st hst; cases hst
  | cons st rest ih =>
    rw [scanLoop] at h
    split at h
    · cases h
    · rename_i hst
      intro s hs
      rcases List.mem_cons.1 hs with e | e
      · subst e; simpa using hst
      · exact ih _ h s e

theorem scanLine_bootloader (fd : firmwareDetails) (text : GoString) :
    (scanLine fd text).bootloader =
      if stringsHasPrefix (stringsTrim text "\r\n".toList) headerBootloaderVersion then
        lastElem (stringsSplit (stringsTrim text "\r\n".toList) ": ".toList)
      else fd.bootloader := by
  unfold scanLine
  simp only
  split <;> split <;> rfl

theorem scanLine_iface (fd : firmwareDetails) (text : GoString) :
    (scanLine fd text).iface =
      if stringsHasPrefix (stringsTrim text "\r\n".toList) headerIFaceVersion then
        lastElem (stringsSplit (stringsTrim text "\r\n".toList) ": ".toList)
      else fd.iface := by
  unfold scanLine
  simp only
  split <;> split <;> rfl

theorem foldl_scanLine_bootloader_keep (steps : List ScanStep) (fd : firmwareDetails)
    (h : ∀ st ∈ steps,
      stringsHasPrefix (stringsTrim st.text "\r\n".toList) headerBootloaderVersion = false) :
    (steps.foldl (fun acc st => scanLine acc st.text) fd).bootloader = fd.bootloader := by
  induction steps generalizing fd with
  | nil => rfl
  | cons st rest ih =>
    rw [List.foldl_cons, ih _ (fun s hs => h s (List.mem_cons_of_mem _ hs)),
      scanLine_bootloader, h st (List.mem_cons_self _ _)]
    rfl

theorem foldl_scanLine_iface_keep (steps : List ScanStep) (fd : firmwareDetails)
    (h : ∀ st ∈ steps,
      stringsHasPrefix (stringsTrim st.text "\r\n".toList) headerIFaceVersion = false) :
    (steps.foldl (fun acc st => scanLine acc st.text) fd).iface = fd.iface := by
  induction steps generalizing fd with
  | nil => rfl
  | cons st rest ih =>
    rw [List.foldl_cons, ih _ (fun s hs => h s (List.mem_cons_of_mem _ hs)),
      scanLine_iface, h st (List.mem_cons_self _ _)]
    rfl

theorem parseDetailsFile_of_open (w : World) (path : GoString) (sc : ScanTrace)
    (hopen : w.files (filepathJoin path mbitDetailsFile) = .ok sc) :
    parseDetailsFile w path = parseScanned sc := by
  unfold parseDetailsFile
  rw [hopen]

theorem parseScanned_ok (sc : ScanTrace) (fd : firmwareDetails)
    (h : parseScanned sc = (fd, none)) :
    fd = sc.steps.foldl (fun acc st => scanLine acc st.text) ⟨[], []⟩ := by
  unfold parseScanned at h
  split at h
  · cases h
  · rename_i out hout
    have hsteps := scanLoop_steps_ok _ _ _ hout
    rw [scanLoop_ok _ _ hsteps] at hout
    split at h
    · cases h
    · cases hout
      simp only [Prod.mk.injEq, and_true] at h
      exact h.symm

/-! ## Known firmware -/

/-- C1. For every pair that is a key of the table, once the locator has succeeded and
`parseDetailsFile` has returned the pair, `resolveConnectedMicrobitVersion` returns
a nil error and the documented revision of the pair. -/
theorem resolve_known_firmware (p : Platform) (w : World) (path : GoString)
    (fd : firmwareDetails)
    (hloc : getMBitPathOnCurrentPlatform p w = (path, none))
    (hparse : parseDetailsFile w path = (fd, none))
    (hkey : fd ∈ firmwareDetailsToMicrobitVersion.map Prod.fst) :
    ∃ mv, resolveConnectedMicrobitVersion p w = (mv, none) ∧
      (fd.bootloader, fd.iface, mv) ∈
        [ ("0234".toList, "0234".toList, "microbit".toList),
          ("0234".toList, "0241".toList, "microbit".toList),
          ("0243".toList, "0249".toList, "microbit".toList),
          ("0255".toList, "0255".toList, "microbit-v2".toList),
          ("0256".toList, "0256".toList, "microbit-v2".toList),
          ("0257".toList, "0257".toList, "microbit-v2".toList),
          ("0255".toList, "0258".toList, "microbit-v2".toList) ] := by
  unfold resolveConnectedMicrobitVersion
  rw [hloc]
  simp only [hparse]
  simp only [firmwareDetailsToMicrobitVersion, List.map_cons, List.map_nil, List.mem_cons,
    List.mem_singleton, List.not_mem_nil, or_false] at hkey
  rcases hkey with h | h | h | h | h | h | h <;> subst h
  · exact ⟨microbitVersion1, by rw [show tableLookup _ = some microbitVersion1 from by decide],
      by decide⟩
  · exact ⟨microbitVersion1, by rw [show tableLookup _ = some microbitVersion1 from by decide],
      by decide⟩
  · exact ⟨microbitVersion1, by rw [show tableLookup _ = some microbitVersion1 from by decide],
      by decide⟩
  · exact ⟨microbitVersion2, by rw [show tableLookup _ = some microbitVersion2 from by decide],
      by decide⟩
  · exact ⟨microbitVersion2, by rw [show tableLookup _ = some microbitVersion2 from by decide],
      by decide⟩
  · exact ⟨microbitVersion2, by rw [show tableLookup _ = some microbitVersion2 from by decide],
      by decide⟩
  · exact ⟨microbitVersion2, by rw [show tableLookup _ = some microbitVersion2 from by decide],
      by decide⟩

theorem resolve_known_firmware_witness :
    ∃ mv, resolveConnectedMicrobitVersion .darwin
        (worldOfLines ["Bootloader Version: 0255".toList, "Interface Version: 0258".toList])
        = (mv, none) ∧
      ("0255".toList, "0258".toList, mv) ∈
        [ ("0234".toList, "0234".toList, "microbit".toList),
          ("0234".toList, "0241".toList, "microbit".toList),
          ("0243".toList, "0249".toList, "microbit".toList),
          ("0255".toList, "0255".toList, "microbit-v2".toList),
          ("0256".toList, "0256".toList, "microbit-v2".toList),
          ("0257".toList, "0257".toList, "microbit-v2".toList),
          ("0255".toList, "0258".toList, "microbit-v2".toList) ] :=
  resolve_known_firmware .darwin
    (worldOfLines ["Bootloader Version: 0255".toList, "Interface Version: 0258".toList])
    "/Volumes/MICROBIT".toList ⟨"0255".toList, "0258".toList⟩
    (by decide) (by decide) (by decide)

/-- C7. A string is a valid revision, hence accepted as the value of `-fallback`,
exactly when it is the value of an entry of the table, that is, when the lookup of
some firmware pair returns it. -/
theorem valid_iff_table_value (s : GoString) :
    (microbitVersion.IsValid s = true ↔
        ∃ fd, (fd, s) ∈ firmwareDetailsToMicrobitVersion) ∧
      (microbitVersion.IsValid s = true ↔ ∃ fd, tableLookup fd = some s) := by
  have hv : microbitVersion.IsValid s = true ↔ s = microbitVersion1 ∨ s = microbitVersion2 := by
    simp [microbitVersion.IsValid]
  refine ⟨?_, ?_⟩
  · rw [hv]
    constructor
    · rintro (h | h) <;> subst h
      · exact ⟨⟨"0234".toList, "0234".toList⟩, by decide⟩
      · exact ⟨⟨"0255".toList, "0255".toList⟩, by decide⟩
    · rintro ⟨fd, h⟩
      simp only [firmwareDetailsToMicrobitVersion, List.mem_cons, Prod.mk.injEq,
        List.not_mem_nil, or_false] at h
      rcases h with h | h | h | h | h | h | h
      all_goals first | exact Or.inl h.2 | exact Or.inr h.2
  · rw [hv]
    constructor
    · rintro (h | h) <;> subst h
      · exact ⟨⟨"0234".toList, "0234".toList⟩, by decide⟩
      · exact ⟨⟨"0255".toList, "0255".toList⟩, by decide⟩
    · rintro ⟨fd, h⟩
      unfold tableLookup at h
      rw [Option.map_eq_some'] at h
      obtain ⟨e, he, hs⟩ := h
      have hmem := List.mem_of_find?_eq_some he
      simp only [firmwareDetailsToMicrobitVersion, List.mem_cons,
        List.not_mem_nil, or_false] at hmem
      rcases hmem with h | h | h | h | h | h | h <;> subst h <;> subst hs
      all_goals first | exact Or.inl rfl | exact Or.inr rfl

/-! ## Unknown firmware -/

theorem escapedRune_plain (table : Char → Bool) (c : Char)
    (h : 0x20 ≤ c.toNat ∧ c.toNat ≤ 0x7E ∧ c ≠ '"' ∧ c ≠ '\\') :
    escapedRune table c = [c] := by
  obtain ⟨h1, h2, h3, h4⟩ := h
  have hp : strconvIsPrint table c = true := by
    unfold strconvIsPrint
    rw [if_pos (by omega), if_pos ⟨h1, h2⟩]
  unfold escapedRune
  rw [if_neg (by simp [h3, h4]), if_pos hp]

theorem strconvQuote_plain (table : Char → Bool) (s : GoString)
    (h : ∀ c ∈ s, 0x20 ≤ c.toNat ∧ c.toNat ≤ 0x7E ∧ c ≠ '"' ∧ c ≠ '\\') :
    strconvQuote table s = '"' :: (s ++ ['"']) := by
  have hflat : s.flatMap (escapedRune table) = s := by
    induction s with
    | nil => rfl
    | cons c s ih =>
      rw [List.flatMap_cons, escapedRune_plain table c (h c (List.mem_cons_self _ _)),
        ih (fun d hd => h d (List.mem_cons_of_mem _ hd))]
      rfl
  unfold strconvQuote
  rw [hflat]

theorem tableLookup_none (fd : firmwareDetails)
    (hkey : fd ∉ firmwareDetailsToMicrobitVersion.map Prod.fst) :
    tableLookup fd = none := by
  unfold tableLookup
  rw [Option.map_eq_none', List.find?_eq_none]
  intro e he heq
  exact hkey (List.mem_map.2 ⟨e, he, by simpa using heq⟩)

/-- C2, as stated, fails: the bootloader `0234` followed by a tab, which
`parseDetailsFile` returns for the line `Bootloader Version: 0234<tab>`, is not a
key of the table, and the message of the error does not contain it: `%q` writes the
tab as a backslash and the letter `t`. -/
theorem unknown_firmware_message_escapes :
    parseDetailsFile
        (worldOfLines ["Bootloader Version: 0234\t".toList, "Interface Version: 0234".toList])
        "/Volumes/MICROBIT".toList
      = (⟨"0234\t".toList, "0234".toList⟩, none) ∧
    (⟨"0234\t".toList, "0234".toList⟩ : firmwareDetails)
      ∉ firmwareDetailsToMicrobitVersion.map Prod.fst ∧
    (resolveConnectedMicrobitVersion .darwin
        (worldOfLines ["Bootloader Version: 0234\t".toList,
          "Interface Version: 0234".toList])).2.map GoError.Error
      = some "unknown firmware combination: (bootloader: \"0234\\t\"; interface: \"0234\")".toList ∧
    stringsContains
        "unknown firmware combination: (bootloader: \"0234\\t\"; interface: \"0234\")".toList
        "0234\t".toList
      = false := by
  decide

/-- C2, amended. For every pair returned by `parseDetailsFile` that is not a key of
the table, `resolveConnectedMicrobitVersion` returns an error classified as
`errUnknownFirmware` whose message contains both strings as `%q` quotes them; it
contains a string verbatim whenever the string is made of printable ASCII characters
other than the double quote and the backslash. -/
theorem resolve_unknown_firmware (p : Platform) (w : World) (path b i : GoString)
    (hloc : getMBitPathOnCurrentPlatform p w = (path, none))
    (hparse : parseDetailsFile w path = (⟨b, i⟩, none))
    (hkey : (⟨b, i⟩ : firmwareDetails) ∉ firmwareDetailsToMicrobitVersion.map Prod.fst) :
    ∃ err, resolveConnectedMicrobitVersion p w = ([], some err) ∧
      errorsIs (some err) errUnknownFirmware = true ∧
      stringsContains err.Error (strconvQuote w.printable b) = true ∧
      stringsContains err.Error (strconvQuote w.printable i) = true ∧
      ((∀ c ∈ b, 0x20 ≤ c.toNat ∧ c.toNat ≤ 0x7E ∧ c ≠ '"' ∧ c ≠ '\\') →
        stringsContains err.Error b = true) ∧
      ((∀ c ∈ i, 0x20 ≤ c.toNat ∧ c.toNat ≤ 0x7E ∧ c ≠ '"' ∧ c ≠ '\\') →
        stringsContains err.Error i = true) := by
  have hres : resolveConnectedMicrobitVersion p w =
      ([], some (.wrap (errUnknownFirmware.Error ++ ": ".toList
        ++ firmwareDetails.String w.printable ⟨b, i⟩) errUnknownFirmware)) := by
    unfold resolveConnectedMicrobitVersion
    rw [hloc]
    simp only [hparse, tableLookup_none _ hkey]
  refine ⟨_, hres, ?_, ?_, ?_, ?_, ?_⟩
  · rw [errorsIs, GoError.is, Bool.or_eq_true]
    exact Or.inr (by decide)
  · rw [stringsContains_iff]
    exact ⟨errUnknownFirmware.Error ++ ": ".toList ++ "(bootloader: ".toList,
      "; interface: ".toList ++ strconvQuote w.printable i ++ ")".toList,
      by simp [GoError.Error, firmwareDetails.String]⟩
  · rw [stringsContains_iff]
    exact ⟨errUnknownFirmware.Error ++ ": ".toList ++ "(bootloader: ".toList
        ++ strconvQuote w.printable b ++ "; interface: ".toList,
      ")".toList, by simp [GoError.Error, firmwareDetails.String]⟩
  · intro hb
    rw [stringsContains_iff]
    exact ⟨errUnknownFirmware.Error ++ ": ".toList ++ "(bootloader: ".toList ++ ['"'],
      ['"'] ++ "; interface: ".toList ++ strconvQuote w.printable i ++ ")".toList,
      by simp [GoError.Error, firmwareDetails.String, strconvQuote_plain _ b hb]⟩
  · intro hi
    rw [stringsContains_iff]
    exact ⟨errUnknownFirmware.Error ++ ": ".toList ++ "(bootloader: ".toList
        ++ strconvQuote w.printable b ++ "; interface: ".toList ++ ['"'],
      ['"'] ++ ")".toList,
      by simp [GoError.Error, firmwareDetails.String, strconvQuote_plain _ i hi]⟩

theorem resolve_unknown_firmware_witness :
    ∃ err,
      resolveConnectedMicrobitVersion .darwin
          (worldOfLines ["Bootloader Version: 0249".toList, "Interface Version: 0234".toList])
        = ([], some err) ∧
      errorsIs (some err) errUnknownFirmware = true ∧
      stringsContains err.Error (strconvQuote (fun _ => false) "0249".toList) = true ∧
      stringsContains err.Error (strconvQuote (fun _ => false) "0234".toList) = true ∧
      ((∀ c ∈ "0249".toList, 0x20 ≤ c.toNat ∧ c.toNat ≤ 0x7E ∧ c ≠ '"' ∧ c ≠ '\\') →
        stringsContains err.Error "0249".toList = true) ∧
      ((∀ c ∈ "0234".toList, 0x20 ≤ c.toNat ∧ c.toNat ≤ 0x7E ∧ c ≠ '"' ∧ c ≠ '\\') →
        stringsContains err.Error "0234".toList = true) :=
  resolve_unknown_firmware .darwin
    (worldOfLines ["Bootloader Version: 0249".toList, "Interface Version: 0234".toList])
    "/Volumes/MICROBIT".toList "0249".toList "0234".toList (by decide) (by decide) (by decide)

/-! ## Fallback -/

theorem resolve_of_locator_error (p : Platform) (w : World) (err : GoError)
    (hloc : (getMBitPathOnCurrentPlatform p w).2 = some err) :
    resolveConnectedMicrobitVersion p w
      = ([], some (errorfWrap "locating microbit: ".toList err)) := by
  unfold resolveConnectedMicrobitVersion
  rcases hp : getMBitPathOnCurrentPlatform p w with ⟨path, e⟩
  rw [hp] at hloc
  simp only at hloc
  subst hloc
  rfl

/-- C3, as stated, fails: with the valid fallback `microbit-v2`, no volume of a
board and a standard output that cannot be written, the locator returns
`errNotDetected`, the error is classified as such, and `main` exits with status 1
without the fallback on standard output. -/
theorem fallback_lost_when_stdout_fails :
    microbitVersion.IsValid "microbit-v2".toList = true ∧
    getMBitPathOnCurrentPlatform .darwin closedStdoutWorld = ([], some errNotDetected) ∧
    errorsIs (resolveConnectedMicrobitVersion .darwin closedStdoutWorld).2 errNotDetected
      = true ∧
    (main .darwin closedStdoutWorld "microbit-v2".toList).termination = Termination.exit 1 ∧
    (main .darwin closedStdoutWorld "microbit-v2".toList).exitStatus = 1 ∧
    (main .darwin closedStdoutWorld "microbit-v2".toList).stdout ≠ "microbit-v2".toList := by
  decide

/-- C3, amended. For a valid value of the flag `-fallback`, when the locator returns
`errNotDetected`: the error that `resolveConnectedMicrobitVersion` returns is
classified as `errNotDetected`; if the write to standard output succeeds, `main`
makes the one logger call of the not-detected case, at Info level, writes exactly
the fallback identifier to standard output and returns, with exit status 0; if the
write fails, `main` makes that call, logs the failure at Error level and exits with
status 1. -/
theorem main_falls_back_when_not_detected (p : Platform) (w : World) (fb : microbitVersion)
    (hfb : fb = "microbit".toList ∨ fb = "microbit-v2".toList)
    (hloc : (getMBitPathOnCurrentPlatform p w).2 = some errNotDetected) :
    errorsIs (resolveConnectedMicrobitVersion p w).2 errNotDetected = true ∧
      (w.stdoutErr = none →
        main p w fb =
            ⟨fb, [⟨.info, "unable to detect a connected microbit, using fallback".toList⟩],
              .returned⟩ ∧
          (main p w fb).exitStatus = 0) ∧
      (w.stdoutErr ≠ none →
        (main p w fb).log =
            [⟨.info, "unable to detect a connected microbit, using fallback".toList⟩,
              ⟨.error, "failed to print resolved microbit platform".toList⟩] ∧
          (main p w fb).termination = Termination.exit 1 ∧
          (main p w fb).exitStatus = 1) := by
  have hres := resolve_of_locator_error p w errNotDetected hloc
  have his : errorsIs (some (errorfWrap "locating microbit: ".toList errNotDetected))
      errNotDetected = true := by decide
  have hvalid : microbitVersion.IsValid fb = true := by
    rcases hfb with h | h <;> subst h <;> decide
  have hmain : main p w fb = printTarget w fb
      [⟨.info, "unable to detect a connected microbit, using fallback".toList⟩] := by
    unfold main
    simp only [hres, his, hvalid, not_true_eq_false, if_false, if_true]
  refine ⟨by rw [hres]; exact his, ?_, ?_⟩
  · intro hout
    have hout2 : main p w fb =
        ⟨fb, [⟨.info, "unable to detect a connected microbit, using fallback".toList⟩],
          .returned⟩ := by
      rw [hmain]
      simp only [printTarget, hout, microbitVersion.String, hvalid, if_true]
    exact ⟨hout2, by rw [hout2]; rfl⟩
  · intro hout
    rcases herr : w.stdoutErr with _ | e
    · exact absurd herr hout
    · have hout2 : main p w fb =
          ⟨[], [⟨.info, "unable to detect a connected microbit, using fallback".toList⟩,
            ⟨.error, "failed to print resolved microbit platform".toList⟩], .exit 1⟩ := by
        rw [hmain]
        simp only [printTarget, herr, List.singleton_append]
      rw [hout2]
      exact ⟨rfl, rfl, rfl⟩

theorem main_falls_back_when_not_detected_witness :
    errorsIs (resolveConnectedMicrobitVersion .darwin worldWithoutBoard).2 errNotDetected
        = true ∧
      (worldWithoutBoard.stdoutErr = none →
        main .darwin worldWithoutBoard "microbit-v2".toList =
            ⟨"microbit-v2".toList,
              [⟨.info, "unable to detect a connected microbit, using fallback".toList⟩],
              .returned⟩ ∧
          (main .darwin worldWithoutBoard "microbit-v2".toList).exitStatus = 0) ∧
      (worldWithoutBoard.stdoutErr ≠ none →
        (main .darwin worldWithoutBoard "microbit-v2".toList).log =
            [⟨.info, "unable to detect a connected microbit, using fallback".toList⟩,
              ⟨.error, "failed to print resolved microbit platform".toList⟩] ∧
          (main .darwin worldWithoutBoard "microbit-v2".toList).termination
            = Termination.exit 1 ∧
          (main .darwin worldWithoutBoard "microbit-v2".toList).exitStatus = 1) :=
  main_falls_back_when_not_detected .darwin worldWithoutBoard "microbit-v2".toList
    (Or.inr rfl) (by decide)

/-! ## The details file: missing and repeated fields -/

/-- C4, as stated, fails: in a details file whose first line is a carriage return
followed by `Bootloader Version: 0234`, no line starts with `Bootloader Version`,
yet `parseDetailsFile` strips the carriage return, reads the field and succeeds. -/
theorem leading_cr_line_is_read :
    (∀ l ∈ ["\rBootloader Version: 0234".toList, "Interface Version: 0234".toList],
        stringsHasPrefix l "Bootloader Version".toList = false) ∧
      parseDetailsFile
          (worldOfLines ["\rBootloader Version: 0234".toList, "Interface Version: 0234".toList])
          "/Volumes/MICROBIT".toList
        = (⟨"0234".toList, "0234".toList⟩, none) := by
  decide

/-- C4, amended. For every details file that is opened and scanned without error,
if no line starts with `Bootloader Version` once its leading and trailing carriage
returns and line feeds are stripped, or no line so stripped starts with
`Interface Version`, then `parseDetailsFile` returns `errInvalidDetails`, whatever
the other lines hold. -/
theorem parse_missing_field_invalid (w : World) (path : GoString) (sc : ScanTrace)
    (hopen : w.files (filepathJoin path mbitDetailsFile) = .ok sc)
    (hread : ∀ st ∈ sc.steps, st.err = none)
    (hmiss :
      (∀ st ∈ sc.steps,
        stringsHasPrefix (stringsTrim st.text "\r\n".toList) "Bootloader Version".toList
          = false) ∨
      (∀ st ∈ sc.steps,
        stringsHasPrefix (stringsTrim st.text "\r\n".toList) "Interface Version".toList
          = false)) :
    parseDetailsFile w path = (⟨[], []⟩, some errInvalidDetails) := by
  rw [parseDetailsFile_of_open w path sc hopen]
  unfold parseScanned
  rw [scanLoop_ok _ _ hread]
  simp only
  rw [if_pos]
  rcases hmiss with h | h
  · exact Or.inl (foldl_scanLine_bootloader_keep _ _ h)
  · exact Or.inr (foldl_scanLine_iface_keep _ _ h)

theorem parse_missing_field_invalid_witness :
    parseDetailsFile
        (worldOfLines ["# DAPLink Firmware".toList, "Interface Version: 0249".toList])
        "/Volumes/MICROBIT".toList
      = (⟨[], []⟩, some errInvalidDetails) :=
  parse_missing_field_invalid
    (worldOfLines ["# DAPLink Firmware".toList, "Interface Version: 0249".toList])
    "/Volumes/MICROBIT".toList
    ⟨[⟨"# DAPLink Firmware".toList, none⟩, ⟨"Interface Version: 0249".toList, none⟩], none⟩
    rfl (by decide) (Or.inl (by decide))

/-- C5, as stated, fails: after two lines that start with `Bootloader Version`, a
line that starts with a carriage return and then `Bootloader Version: 0243` is not
a line that starts with `Bootloader Version`, yet it is the one whose value
`parseDetailsFile` returns. -/
theorem later_leading_cr_line_wins :
    (["Bootloader Version: 0234".toList, "Bootloader Version: 0255".toList,
        "\rBootloader Version: 0243".toList, "Interface Version: 0249".toList].filter
          (fun l => stringsHasPrefix l "Bootloader Version".toList)).getLast?
        = some "Bootloader Version: 0255".toList ∧
      lastElem (stringsSplit "Bootloader Version: 0255".toList ": ".toList) = "0255".toList ∧
      parseDetailsFile
          (worldOfLines ["Bootloader Version: 0234".toList, "Bootloader Version: 0255".toList,
            "\rBootloader Version: 0243".toList, "Interface Version: 0249".toList])
          "/Volumes/MICROBIT".toList
        = (⟨"0243".toList, "0249".toList⟩, none) := by
  decide

/-- C5, amended. Whenever `parseDetailsFile` succeeds, the bootloader field it
returns is the last segment, split on `": "`, of the last line that starts with
`Bootloader Version` once its leading and trailing carriage returns and line feeds
are stripped, the segment being taken from the stripped line; the lines before it
play no part. The same holds of the interface field and `Interface Version`. -/
theorem parse_last_line_wins (w : World) (path : GoString) (sc : ScanTrace)
    (fd : firmwareDetails)
    (hopen : w.files (filepathJoin path mbitDetailsFile) = .ok sc)
    (hok : parseDetailsFile w path = (fd, none)) :
    (∀ pre st post, sc.steps = pre ++ st :: post →
        stringsHasPrefix (stringsTrim st.text "\r\n".toList) "Bootloader Version".toList
          = true →
        (∀ s ∈ post,
          stringsHasPrefix (stringsTrim s.text "\r\n".toList) "Bootloader Version".toList
            = false) →
        fd.bootloader = lastElem (stringsSplit (stringsTrim st.text "\r\n".toList) ": ".toList)) ∧
      (∀ pre st post, sc.steps = pre ++ st :: post →
        stringsHasPrefix (stringsTrim st.text "\r\n".toList) "Interface Version".toList
          = true →
        (∀ s ∈ post,
          stringsHasPrefix (stringsTrim s.text "\r\n".toList) "Interface Version".toList
            = false) →
        fd.iface = lastElem (stringsSplit (stringsTrim st.text "\r\n".toList) ": ".toList)) := by
  rw [parseDetailsFile_of_open w path sc hopen] at hok
  have hfd := parseScanned_ok sc fd hok
  refine ⟨?_, ?_⟩
  · intro pre st post hsteps hst hpost
    rw [hfd, hsteps, List.foldl_append, List.foldl_cons,
      foldl_scanLine_bootloader_keep post _ hpost, scanLine_bootloader]
    exact if_pos hst
  · intro pre st post hsteps hst hpost
    rw [hfd, hsteps, List.foldl_append, List.foldl_cons,
      foldl_scanLine_iface_keep post _ hpost, scanLine_iface]
    exact if_pos hst

theorem parse_last_line_wins_witness :
    (∀ pre st post,
        [(⟨"Bootloader Version: 0234".toList, none⟩ : ScanStep),
          ⟨"Bootloader Version: 0255\r".toList, none⟩,
          ⟨"Interface Version: 0255".toList, none⟩] = pre ++ st :: post →
        stringsHasPrefix (stringsTrim st.text "\r\n".toList) "Bootloader Version".toList
          = true →
        (∀ s ∈ post,
          stringsHasPrefix (stringsTrim s.text "\r\n".toList) "Bootloader Version".toList
            = false) →
        "0255".toList = lastElem (stringsSplit (stringsTrim st.text "\r\n".toList) ": ".toList)) ∧
      (∀ pre st post,
        [(⟨"Bootloader Version: 0234".toList, none⟩ : ScanStep),
          ⟨"Bootloader Version: 0255\r".toList, none⟩,
          ⟨"Interface Version: 0255".toList, none⟩] = pre ++ st :: post →
        stringsHasPrefix (stringsTrim st.text "\r\n".toList) "Interface Version".toList
          = true →
        (∀ s ∈ post,
          stringsHasPrefix (stringsTrim s.text "\r\n".toList) "Interface Version".toList
            = false) →
        "0255".toList = lastElem (stringsSplit (stringsTrim st.text "\r\n".toList) ": ".toList)) :=
  parse_last_line_wins
    (worldOfLines ["Bootloader Version: 0234".toList, "Bootloader Version: 0255\r".toList,
      "Interface Version: 0255".toList])
    "/Volumes/MICROBIT".toList
    ⟨[⟨"Bootloader Version: 0234".toList, none⟩, ⟨"Bootloader Version: 0255\r".toList, none⟩,
      ⟨"Interface Version: 0255".toList, none⟩], none⟩
    ⟨"0255".toList, "0255".toList⟩ rfl (by decide)

/-! ## The macOS locator -/

theorem microbit_name_proper (n : GoString)
    (h : stringsContains n "MICROBIT".toList = true) :
    n ≠ [] ∧ n ≠ ['.'] ∧ n ≠ ['.', '.'] := by
  refine ⟨?_, ?_, ?_⟩ <;> intro e <;> subst e <;> revert h <;> decide

theorem firstMicrobitPath_none (names : List GoString)
    (h : ∀ n ∈ names, stringsContains n "MICROBIT".toList = false) :
    firstMicrobitPath names = [] := by
  induction names with
  | nil => rfl
  | cons n rest ih =>
    rw [firstMicrobitPath, h n (List.mem_cons_self _ _)]
    simpa using ih (fun m hm => h m (List.mem_cons_of_mem _ hm))

theorem firstMicrobitPath_first (pre post : List GoString) (n : GoString)
    (hpre : ∀ m ∈ pre, stringsContains m "MICROBIT".toList = false)
    (hn : stringsContains n "MICROBIT".toList = true) :
    firstMicrobitPath (pre ++ n :: post) = filepathJoin "/Volumes".toList n := by
  induction pre with
  | nil => rw [List.nil_append, firstMicrobitPath, if_pos hn]
  | cons m pre ih =>
    rw [List.cons_append, firstMicrobitPath, hpre m (List.mem_cons_self _ _)]
    simpa using ih (fun k hk => hpre k (List.mem_cons_of_mem _ hk))

theorem firstMicrobitPath_ne_nil (names : List GoString) (n : GoString) (hmem : n ∈ names)
    (hn : stringsContains n "MICROBIT".toList = true) :
    firstMicrobitPath names ≠ [] := by
  induction names with
  | nil => cases hmem
  | cons m rest ih =>
    rw [firstMicrobitPath]
    split
    · exact filepathJoin_ne_nil _ _ (by decide)
    · rename_i hm
      rcases List.mem_cons.1 hmem with e | e
      · exact absurd (e ▸ hn) hm
      · exact ih e

/-- C6. On macOS, for every listing of `/Volumes` (names of directory entries, hence
without a slash): the locator returns `/Volumes/n` for the first entry `n` of the
listing whose name contains `MICROBIT`, whatever follows it, and it returns
`errNotDetected` exactly when no name contains `MICROBIT`. -/
theorem darwin_returns_first_microbit_volume (w : World) (names : List GoString)
    (hvol : w.volumes = .ok names) (hnames : ∀ n ∈ names, '/' ∉ n) :
    (∀ pre n post, names = pre ++ n :: post →
        (∀ m ∈ pre, stringsContains m "MICROBIT".toList = false) →
        stringsContains n "MICROBIT".toList = true →
        getMBitPathOnCurrentPlatform .darwin w = ("/Volumes/".toList ++ n, none)) ∧
      ((getMBitPathOnCurrentPlatform .darwin w).2 = some errNotDetected ↔
        ∀ n ∈ names, stringsContains n "MICROBIT".toList = false) := by
  have hget : getMBitPathOnCurrentPlatform .darwin w =
      if firstMicrobitPath names = [] then ([], some errNotDetected)
      else (firstMicrobitPath names, none) := by
    simp only [getMBitPathOnCurrentPlatform, getMBitPathDarwin, hvol]
  refine ⟨?_, ?_⟩
  · intro pre n post hsplit hpre hn
    have hmem : n ∈ names := by rw [hsplit]; simp
    obtain ⟨h0, h1, h2⟩ := microbit_name_proper n hn
    have hpath : firstMicrobitPath names = "/Volumes/".toList ++ n := by
      rw [hsplit, firstMicrobitPath_first pre post n hpre hn,
        filepathJoin_volumes n (hnames n hmem) h0 h1 h2]
    rw [hget, hpath, if_neg (by simp)]
  · rw [hget]
    constructor
    · intro h n hmem
      by_contra hc
      have hn : stringsContains n "MICROBIT".toList = true := by simpa using hc
      rw [if_neg (firstMicrobitPath_ne_nil names n hmem hn)] at h
      cases h
    · intro h
      rw [if_pos (firstMicrobitPath_none names h)]

theorem darwin_returns_first_microbit_volume_witness :
    (∀ pre n post,
        ["Macintosh HD".toList, "MICROBIT".toList, "MICROBIT 1".toList] = pre ++ n :: post →
        (∀ m ∈ pre, stringsContains m "MICROBIT".toList = false) →
        stringsContains n "MICROBIT".toList = true →
        getMBitPathOnCurrentPlatform .darwin twoBoardsWorld
          = ("/Volumes/".toList ++ n, none)) ∧
      ((getMBitPathOnCurrentPlatform .darwin twoBoardsWorld).2 = some errNotDetected ↔
        ∀ n ∈ ["Macintosh HD".toList, "MICROBIT".toList, "MICROBIT 1".toList],
          stringsContains n "MICROBIT".toList = false) :=
  darwin_returns_first_microbit_volume twoBoardsWorld
    ["Macintosh HD".toList, "MICROBIT".toList, "MICROBIT 1".toList] rfl (by decide)

/-! ## The details file: trailing characters -/

theorem splitGo_no_colon (s acc : GoString) (h : ':' ∉ s) :
    splitGo ": ".toList s 0 acc = [acc.reverse ++ s] := by
  induction s generalizing acc with
  | nil => simp [splitGo]
  | cons c s ih =>
    have hc : c ≠ ':' := fun e => h (e ▸ List.mem_cons_self _ _)
    have hs : ':' ∉ s := fun e => h (List.mem_cons_of_mem _ e)
    have hpre : List.isPrefixOf ": ".toList (c :: s) = false := by
      show List.isPrefixOf (':' :: [' ']) (c :: s) = false
      rw [List.isPrefixOf]
      simp [Ne.symm hc]
    rw [splitGo, hpre, ih _ hs]
    simp

theorem stringsTrimRight_concat (s cutset : GoString) (c : Char) (hc : c ∉ cutset) :
    stringsTrimRight (s ++ [c]) cutset = s ++ [c] := by
  unfold stringsTrimRight
  rw [List.reverse_append, List.reverse_singleton, List.singleton_append,
    List.dropWhile_cons_of_neg (by simpa using hc)]
  simp

theorem stringsTrimRight_header (hdr code : GoString)
    (hcode : ∀ c ∈ code, c ≠ ':' ∧ c ≠ '\r' ∧ c ≠ '\n') :
    stringsTrimRight (hdr ++ ' ' :: code) "\r\n".toList = hdr ++ ' ' :: code := by
  rcases List.eq_nil_or_concat code with h | ⟨init, l, h⟩
  · subst h
    exact stringsTrimRight_concat hdr _ ' ' (by decide)
  · subst h
    have hl := hcode l (by simp)
    have : hdr ++ ' ' :: init.concat l = (hdr ++ ' ' :: init) ++ [l] := by simp
    rw [this]
    refine stringsTrimRight_concat _ _ l ?_
    intro hmem
    have : l = '\r' ∨ l = '\n' := by simpa using hmem
    rcases this with e | e
    · exact hl.2.1 e
    · exact hl.2.2 e

theorem scanLine_append (fd : firmwareDetails) (text t : GoString)
    (ht : ∀ c ∈ t, c = '\r' ∨ c = '\n') :
    scanLine fd (text ++ t) = scanLine fd text := by
  have h : stringsTrim (text ++ t) "\r\n".toList = stringsTrim text "\r\n".toList :=
    stringsTrim_append text t _ (fun c hc => by rcases ht c hc with e | e <;> subst e <;> decide)
  unfold scanLine
  rw [h]

theorem scanLine_bootloader_line (fd : firmwareDetails) (code : GoString)
    (hcode : ∀ c ∈ code, c ≠ ':' ∧ c ≠ '\r' ∧ c ≠ '\n') :
    scanLine fd ("Bootloader Version: ".toList ++ code) = { fd with bootloader := code } := by
  have hcolon : ':' ∉ code := fun h => (hcode _ h).1 rfl
  have htrim : stringsTrim ("Bootloader Version: ".toList ++ code) "\r\n".toList
      = "Bootloader Version: ".toList ++ code := by
    unfold stringsTrim
    have hl : stringsTrimLeft ("Bootloader Version: ".toList ++ code) "\r\n".toList
        = "Bootloader Version: ".toList ++ code := by
      simp +decide [stringsTrimLeft]
    rw [hl]
    exact stringsTrimRight_header "Bootloader Version:".toList code hcode
  have hsplit : stringsSplit ("Bootloader Version: ".toList ++ code) ": ".toList
      = ["Bootloader Version".toList, code] := by
    have hgo : splitGo [':', ' '] code 0 [] = [code] := by
      simpa using splitGo_no_colon code [] hcolon
    simp +decide [stringsSplit, splitGo, hgo]
  simp only [scanLine, htrim, hsplit]
  simp +decide [stringsHasPrefix, headerBootloaderVersion, headerIFaceVersion, lastElem]

theorem scanLine_iface_line (fd : firmwareDetails) (code : GoString)
    (hcode : ∀ c ∈ code, c ≠ ':' ∧ c ≠ '\r' ∧ c ≠ '\n') :
    scanLine fd ("Interface Version: ".toList ++ code) = { fd with iface := code } := by
  have hcolon : ':' ∉ code := fun h => (hcode _ h).1 rfl
  have htrim : stringsTrim ("Interface Version: ".toList ++ code) "\r\n".toList
      = "Interface Version: ".toList ++ code := by
    unfold stringsTrim
    have hl : stringsTrimLeft ("Interface Version: ".toList ++ code) "\r\n".toList
        = "Interface Version: ".toList ++ code := by
      simp +decide [stringsTrimLeft]
    rw [hl]
    exact stringsTrimRight_header "Interface Version:".toList code hcode
  have hsplit : stringsSplit ("Interface Version: ".toList ++ code) ": ".toList
      = ["Interface Version".toList, code] := by
    have hgo : splitGo [':', ' '] code 0 [] = [code] := by
      simpa using splitGo_no_colon code [] hcolon
    simp +decide [stringsSplit, splitGo, hgo]
  simp only [scanLine, htrim, hsplit]
  simp +decide [stringsHasPrefix, headerBootloaderVersion, headerIFaceVersion, lastElem]

theorem parseScanned_congr (pre post : List ScanStep) (a b : GoString) (e : Option GoError)
    (h : ∀ fd, scanLine fd a = scanLine fd b) :
    parseScanned ⟨pre ++ ⟨a, none⟩ :: post, e⟩ = parseScanned ⟨pre ++ ⟨b, none⟩ :: post, e⟩ := by
  have hloop : ∀ (l : List ScanStep) (fd : firmwareDetails),
      scanLoop (l ++ ⟨a, none⟩ :: post) fd = scanLoop (l ++ ⟨b, none⟩ :: post) fd := by
    intro l
    induction l with
    | nil =>
      intro fd
      simp only [List.nil_append, scanLoop, ne_eq, not_true_eq_false, if_false, h fd]
    | cons st rest ih =>
      intro fd
      simp only [List.cons_append, scanLoop]
      split
      · rfl
      · exact ih _
  unfold parseScanned
  simp only [hloop pre]

/-- C9, as stated, fails: a space after the code is kept in the field. The line
`Bootloader Version: 0234` followed by a space, or by a tab, gives the bootloader
`0234` followed by that character, not `0234`. -/
theorem trailing_space_is_kept :
    parseDetailsFile
        (worldOfLines ["Bootloader Version: 0234 ".toList, "Interface Version: 0234".toList])
        "/Volumes/MICROBIT".toList
      = (⟨"0234 ".toList, "0234".toList⟩, none) ∧
    parseDetailsFile
        (worldOfLines ["Bootloader Version: 0234".toList, "Interface Version: 0234\t".toList])
        "/Volumes/MICROBIT".toList
      = (⟨"0234".toList, "0234\t".toList⟩, none) ∧
    parseDetailsFile
        (worldOfLines ["Bootloader Version: 0234".toList, "Interface Version: 0234".toList])
        "/Volumes/MICROBIT".toList
      = (⟨"0234".toList, "0234".toList⟩, none) := by
  decide

/-- C9, amended. For every code without a colon, a carriage return or a line feed,
the line `Bootloader Version: ` and the code, followed by any run of carriage
returns and line feeds (no other white space), sets the bootloader field to the
code, as the line without the run does; likewise `Interface Version: ` and the
interface field; and a details file in which such a line carries the run is parsed
by `parseDetailsFile` to the same result as the file in which it does not. -/
theorem trailing_cr_tolerated (code t : GoString)
    (hcode : ∀ c ∈ code, c ≠ ':' ∧ c ≠ '\r' ∧ c ≠ '\n')
    (ht : ∀ c ∈ t, c = '\r' ∨ c = '\n') :
    (∀ fd : firmwareDetails,
        scanLine fd ("Bootloader Version: ".toList ++ code ++ t) = { fd with bootloader := code } ∧
        scanLine fd ("Bootloader Version: ".toList ++ code) = { fd with bootloader := code } ∧
        scanLine fd ("Interface Version: ".toList ++ code ++ t) = { fd with iface := code } ∧
        scanLine fd ("Interface Version: ".toList ++ code) = { fd with iface := code }) ∧
      (∀ (w₁ w₂ : World) (path hdr : GoString) (pre post : List ScanStep)
          (e : Option GoError),
        hdr = "Bootloader Version: ".toList ∨ hdr = "Interface Version: ".toList →
        w₁.files (filepathJoin path mbitDetailsFile)
          = .ok ⟨pre ++ ⟨hdr ++ code ++ t, none⟩ :: post, e⟩ →
        w₂.files (filepathJoin path mbitDetailsFile)
          = .ok ⟨pre ++ ⟨hdr ++ code, none⟩ :: post, e⟩ →
        parseDetailsFile w₁ path = parseDetailsFile w₂ path) := by
  refine ⟨fun fd => ⟨?_, ?_, ?_, ?_⟩, ?_⟩
  · rw [scanLine_append fd _ t ht]
    exact scanLine_bootloader_line fd code hcode
  · exact scanLine_bootloader_line fd code hcode
  · rw [scanLine_append fd _ t ht]
    exact scanLine_iface_line fd code hcode
  · exact scanLine_iface_line fd code hcode
  · intro w₁ w₂ path hdr pre post e _ h₁ h₂
    rw [parseDetailsFile_of_open w₁ path _ h₁, parseDetailsFile_of_open w₂ path _ h₂]
    exact parseScanned_congr pre post _ _ e (fun fd => scanLine_append fd _ t ht)

theorem trailing_cr_tolerated_witness :
    (∀ fd : firmwareDetails,
        scanLine fd ("Bootloader Version: ".toList ++ "0234".toList ++ "\r".toList)
          = { fd with bootloader := "0234".toList } ∧
        scanLine fd ("Bootloader Version: ".toList ++ "0234".toList)
          = { fd with bootloader := "0234".toList } ∧
        scanLine fd ("Interface Version: ".toList ++ "0234".toList ++ "\r".toList)
          = { fd with iface := "0234".toList } ∧
        scanLine fd ("Interface Version: ".toList ++ "0234".toList)
          = { fd with iface := "0234".toList }) ∧
      (∀ (w₁ w₂ : World) (path hdr : GoString) (pre post : List ScanStep)
          (e : Option GoError),
        hdr = "Bootloader Version: ".toList ∨ hdr = "Interface Version: ".toList →
        w₁.files (filepathJoin path mbitDetailsFile)
          = .ok ⟨pre ++ ⟨hdr ++ "0234".toList ++ "\r".toList, none⟩ :: post, e⟩ →
        w₂.files (filepathJoin path mbitDetailsFile)
          = .ok ⟨pre ++ ⟨hdr ++ "0234".toList, none⟩ :: post, e⟩ →
        parseDetailsFile w₁ path = parseDetailsFile w₂ path) :=
  trailing_cr_tolerated "0234".toList "\r".toList (by decide) (by decide)

/-! ## The details file: read errors -/

/-- C8: the code at the failing inputs. When the scanner stops on a read error after
the two field lines, `parseDetailsFile` returns the details and a nil error; when it
stops on a read error before any line, `parseDetailsFile` returns
`errInvalidDetails`. In general the error on which the scan stops plays no part in
the result. -/
theorem parse_ignores_final_read_error :
    parseDetailsFile
        (readErrorWorld ["Bootloader Version: 0234".toList, "Interface Version: 0234".toList])
        "/Volumes/MICROBIT".toList
      = (⟨"0234".toList, "0234".toList⟩, none) ∧
    parseDetailsFile (readErrorWorld []) "/Volumes/MICROBIT".toList
      = (⟨[], []⟩, some errInvalidDetails) ∧
    ∀ (steps : List ScanStep) (err : Option GoError),
      parseScanned ⟨steps, err⟩ = parseScanned ⟨steps, none⟩ :=
  ⟨by decide, by decide, fun _ _ => rfl⟩

/-! ## The Linux locator -/

/-- C10: the body of the Linux locator at the failing input. The file
`resolve_linux.go` does not compile (line 22), so this is the text of the function
read by hand and not a run. When the pipeline has printed `/media/user/MICROBIT` and
a newline, the body returns the mount point with the newline at its end, not the
mount point, and the path joined with `DETAILS.TXT` is
`/media/user/MICROBIT<newline>/DETAILS.TXT`, not the details file of the board. When
the pipeline has printed nothing, the body returns `errNotDetected`. -/
theorem linux_path_keeps_newline :
    getMBitPathOnCurrentPlatform .linux linuxBoardWorld
      = ("/media/user/MICROBIT\n".toList, none) ∧
    getMBitPathOnCurrentPlatform .linux linuxBoardWorld
      ≠ ("/media/user/MICROBIT".toList, none) ∧
    filepathJoin (getMBitPathOnCurrentPlatform .linux linuxBoardWorld).1 mbitDetailsFile
      = "/media/user/MICROBIT\n/DETAILS.TXT".toList ∧
    filepathJoin (getMBitPathOnCurrentPlatform .linux linuxBoardWorld).1 mbitDetailsFile
      ≠ "/media/user/MICROBIT/DETAILS.TXT".toList ∧
    getMBitPathOnCurrentPlatform .linux worldWithoutBoard = ([], some errNotDetected) := by
  decide

end Mbitselect
